import Mathlib

/-!
Verification of the `reckon` redis sampler (`sample.go` and the
multiple-instances example) against its natural-language specification.

The connection to the store is modelled as an oracle of replies: each
sampler takes the replies the corresponding redis commands would return,
and the run loop takes a per-iteration stream of such replies.  Go's
in-place mutation of the per-bucket `*Results` through the pointer
returned by `ensureEntry` is modelled as ensure-then-update on an
association list; a Go runtime panic (index out of range) and a returned
Go `error` are distinguished by the `Failure` type.
-/

namespace Reckon

/-- A redis reply value, as consumed by the redigo conversion helpers.
`rnil` models a nil reply (e.g. `SRANDMEMBER` on an empty set). -/
inductive RValue where
  | rstr (s : String)
  | rint (n : Int)
  | rlist (ss : List String)
  | rnil
  deriving Repr, DecidableEq

/-- Outcome of a Go operation that can go wrong: either a returned
`error` value, or a runtime panic. -/
inductive Failure where
  | err (msg : String)
  | panicked (msg : String)
  deriving Repr, DecidableEq

/-- redigo `redis.String`: converts a reply to a string; a nil reply
yields the `ErrNil` error, an incompatible reply a conversion error. -/
def redisString : RValue → Except String String
  | .rstr s => .ok s
  | .rnil => .error "redigo: nil returned"
  | _ => .error "redigo: unexpected type for String"

/-- redigo `redis.Int`: converts a reply to an integer. -/
def redisInt : RValue → Except String Int
  | .rint n => .ok n
  | .rnil => .error "redigo: nil returned"
  | _ => .error "redigo: unexpected type for Int"

/-- redigo `redis.Strings`: converts a multi-bulk reply to a list of
strings. -/
def redisStrings : RValue → Except String (List String)
  | .rlist ss => .ok ss
  | .rnil => .error "redigo: nil returned"
  | _ => .error "redigo: unexpected type for Strings"

/-- `Options` from `sample.go`: host/port of the redis instance and the
number of random keys to sample. -/
structure Options where
  Host : String
  Port : Int
  NumKeys : Int
  deriving Repr, DecidableEq

/-- `ValueType` from `sample.go`: the string representation matches what
redis' `TYPE` command returns. -/
abbrev ValueType := String

/-- `TypeString` represents a redis string value. -/
def TypeString : ValueType := "string"

/-- `TypeSortedSet` represents a redis sorted set value. -/
def TypeSortedSet : ValueType := "zset"

/-- `TypeSet` represents a redis set value. -/
def TypeSet : ValueType := "set"

/-- `TypeHash` represents a redis hash value. -/
def TypeHash : ValueType := "hash"

/-- `TypeList` represents a redis list value. -/
def TypeList : ValueType := "list"

/-- `TypeUnknown` means the redis value type is undefined and indicates
an error. -/
def TypeUnknown : ValueType := "unknown"

/-- Modelled from the spec: running summary statistics for one kind of
size/length sample (`min/max/sum/count`), the statistics component of
the `Results` accumulator, whose code (`stats.go`) is not under `src/`.
`min`/`max` are `none` while no sample has been recorded. -/
structure SizeStats where
  count : Nat
  sum : Int
  min : Option Int
  max : Option Int
  deriving Repr, DecidableEq

/-- The empty size-statistics accumulator. -/
def SizeStats.empty : SizeStats := ⟨0, 0, none, none⟩

/-- Combine two optional extrema with `f` (`none` is the identity). -/
def optCombine (f : Int → Int → Int) : Option Int → Option Int → Option Int
  | none, b => b
  | some a, none => some a
  | some a, some b => some (f a b)

/-- Record one sample of size `n`. -/
def SizeStats.add (s : SizeStats) (n : Int) : SizeStats :=
  ⟨s.count + 1, s.sum + n, optCombine Min.min s.min (some n),
    optCombine Max.max s.max (some n)⟩

/-- Merge two size-statistics accumulators. -/
def SizeStats.merge (a b : SizeStats) : SizeStats :=
  ⟨a.count + b.count, a.sum + b.sum, optCombine Min.min a.min b.min,
    optCombine Max.max a.max b.max⟩

/-- Modelled from the spec: the per-bucket `Results` accumulator
(`stats.go` is not under `src/`).  Per the spec it holds the bucket
`Name` (assigned by the caller, not the engine), one key counter per
`ValueType`, and `min/max/sum/count` distributions for string
byte-lengths, collection cardinalities and sampled member/field/value
sizes. -/
structure Results where
  Name : String
  stringKeys : Nat
  listKeys : Nat
  setKeys : Nat
  sortedSetKeys : Nat
  hashKeys : Nat
  stringSizes : SizeStats
  listLengths : SizeStats
  listElementSizes : SizeStats
  setCards : SizeStats
  setMemberSizes : SizeStats
  sortedSetCards : SizeStats
  sortedSetMemberSizes : SizeStats
  hashLengths : SizeStats
  hashFieldSizes : SizeStats
  hashValueSizes : SizeStats
  deriving Repr, DecidableEq

/-- `NewResults` creates an empty `Results` accumulator. -/
def NewResults : Results :=
  ⟨"", 0, 0, 0, 0, 0, .empty, .empty, .empty, .empty, .empty, .empty,
    .empty, .empty, .empty, .empty⟩

/-- Byte length of a string, Go's `len` on a string value. -/
def byteLen (s : String) : Int := (s.utf8ByteSize : Int)

/-- Modelled from the spec: `observeString(key, value)` records one
string-type observation and updates byte-length statistics for the
value. -/
def Results.observeString (r : Results) (_key val : String) : Results :=
  { r with stringKeys := r.stringKeys + 1,
           stringSizes := r.stringSizes.add (byteLen val) }

/-- Modelled from the spec: `observeList(key, length, firstElement)`
records the cardinality and a size sample of the first element. -/
def Results.observeList (r : Results) (_key : String) (len : Int)
    (first : String) : Results :=
  { r with listKeys := r.listKeys + 1,
           listLengths := r.listLengths.add len,
           listElementSizes := r.listElementSizes.add (byteLen first) }

/-- Modelled from the spec: `observeSet(key, cardinality, member)`
records the set cardinality and a size sample of one member. -/
def Results.observeSet (r : Results) (_key : String) (card : Int)
    (member : String) : Results :=
  { r with setKeys := r.setKeys + 1,
           setCards := r.setCards.add card,
           setMemberSizes := r.setMemberSizes.add (byteLen member) }

/-- Modelled from the spec: `observeSortedSet(key, cardinality, member)`
records the cardinality and a size sample of one member. -/
def Results.observeSortedSet (r : Results) (_key : String) (card : Int)
    (member : String) : Results :=
  { r with sortedSetKeys := r.sortedSetKeys + 1,
           sortedSetCards := r.sortedSetCards.add card,
           sortedSetMemberSizes := r.sortedSetMemberSizes.add (byteLen member) }

/-- Modelled from the spec: `observeHash(key, fieldCount, field, value)`
records the field count and size samples of one field name and its
value. -/
def Results.observeHash (r : Results) (_key : String) (fieldCount : Int)
    (field val : String) : Results :=
  { r with hashKeys := r.hashKeys + 1,
           hashLengths := r.hashLengths.add fieldCount,
           hashFieldSizes := r.hashFieldSizes.add (byteLen field),
           hashValueSizes := r.hashValueSizes.add (byteLen val) }

/-- Modelled from the spec: `Merge(other)` combines the other
accumulator's statistics into the receiver; the receiver keeps its
`Name` (the name is assigned by the caller after a run). -/
def Results.Merge (r other : Results) : Results :=
  ⟨r.Name,
    r.stringKeys + other.stringKeys,
    r.listKeys + other.listKeys,
    r.setKeys + other.setKeys,
    r.sortedSetKeys + other.sortedSetKeys,
    r.hashKeys + other.hashKeys,
    r.stringSizes.merge other.stringSizes,
    r.listLengths.merge other.listLengths,
    r.listElementSizes.merge other.listElementSizes,
    r.setCards.merge other.setCards,
    r.setMemberSizes.merge other.setMemberSizes,
    r.sortedSetCards.merge other.sortedSetCards,
    r.sortedSetMemberSizes.merge other.sortedSetMemberSizes,
    r.hashLengths.merge other.hashLengths,
    r.hashFieldSizes.merge other.hashFieldSizes,
    r.hashValueSizes.merge other.hashValueSizes⟩

/-- An `Aggregator` returns 0 or more bucket names for a key; the
single-method Go interface (and its `AggregatorFunc` adapter) is
modelled as a function. -/
abbrev Aggregator := String → ValueType → List String

/-- Modelled from the spec: the built-in `AnyKey` aggregator returns a
single constant bucket name for every key (its code is not under
`src/`; the exact constant is immaterial to the engine). -/
def AnyKey : Aggregator := fun _ _ => ["any-key"]

/-- The `map[string]*Results` bucket map, as an association list with
unique keys (inserted only via `ensureEntry`). -/
abbrev StatsMap := List (String × Results)

/-- `ensureEntry` from `sample.go`: obtain the `Results` entry for
`group`, creating a new one via `init` if no entry exists.  The Go
function returns a shared pointer; here the map with the entry ensured
is returned, and mutation through the pointer is `observeAt`. -/
def ensureEntry (m : StatsMap) (group : String) (init : Unit → Results) :
    StatsMap :=
  if (m.lookup group).isSome then m else m ++ [(group, init ())]

/-- Apply `f` in place to the entry for `group` (first match); models
Go's mutation of the `*Results` returned by `ensureEntry`. -/
def observeAt : StatsMap → String → (Results → Results) → StatsMap
  | [], _, _ => []
  | (k, v) :: rest, g, f =>
    if k = g then (k, f v) :: rest else (k, v) :: observeAt rest g f

/-- `sampleString` from `sample.go`: `GET key`, then record one
string observation per aggregation group. -/
def sampleString (key : String) (getReply : Except String String)
    (aggregator : Aggregator) (stats : StatsMap) :
    StatsMap × Option Failure :=
  match getReply with
  | .error e => (stats, some (.err e))
  | .ok val =>
    ((aggregator key TypeString).foldl
      (fun m g =>
        observeAt (ensureEntry m g fun _ => NewResults) g
          (fun s => s.observeString key val))
      stats, none)

/-- The group loop of `sampleList`: the Go loop body evaluates `ms[0]`
at each iteration, so an empty member slice panics only when at least
one group is produced. -/
def listGroupLoop (key : String) (l : Int) (ms : List String) :
    List String → StatsMap → StatsMap × Option Failure
  | [], stats => (stats, none)
  | g :: gs, stats =>
    match ms with
    | [] => (stats, some (.panicked "runtime error: index out of range"))
    | m0 :: _ =>
      listGroupLoop key l ms gs
        (observeAt (ensureEntry stats g fun _ => NewResults) g
          (fun s => s.observeList key l m0))

/-- `sampleList` from `sample.go`: pipelined `LLEN`/`LRANGE key 0 0`,
then record one list observation per group.  If the flush returns fewer
than two replies nothing is recorded and no error is reported.  redigo's
error chaining (`redis.Strings(replies[1], err)`) is first-error-wins,
modelled by the nested matches. -/
def sampleList (key : String) (flushReply : Except String (List RValue))
    (aggregator : Aggregator) (stats : StatsMap) :
    StatsMap × Option Failure :=
  match flushReply with
  | .error e => (stats, some (.err e))
  | .ok (r0 :: r1 :: _) =>
    match redisInt r0 with
    | .error e => (stats, some (.err e))
    | .ok l =>
      match redisStrings r1 with
      | .error e => (stats, some (.err e))
      | .ok ms => listGroupLoop key l ms (aggregator key TypeList) stats
  | .ok _ => (stats, none)

/-- `sampleSet` from `sample.go`: pipelined `SCARD`/`SRANDMEMBER`, then
record one set observation per group.  The member is converted before
the group loop, so an empty set surfaces as redigo's nil-reply error,
not a panic. -/
def sampleSet (key : String) (flushReply : Except String (List RValue))
    (aggregator : Aggregator) (stats : StatsMap) :
    StatsMap × Option Failure :=
  match flushReply with
  | .error e => (stats, some (.err e))
  | .ok (r0 :: r1 :: _) =>
    match redisInt r0 with
    | .error e => (stats, some (.err e))
    | .ok l =>
      match redisString r1 with
      | .error e => (stats, some (.err e))
      | .ok m =>
        ((aggregator key TypeSet).foldl
          (fun acc g =>
            observeAt (ensureEntry acc g fun _ => NewResults) g
              (fun s => s.observeSet key l m))
          stats, none)
  | .ok _ => (stats, none)

/-- The group loop of `sampleSortedSet`; like `listGroupLoop`, `ms[0]`
is evaluated per iteration. -/
def sortedSetGroupLoop (key : String) (l : Int) (ms : List String) :
    List String → StatsMap → StatsMap × Option Failure
  | [], stats => (stats, none)
  | g :: gs, stats =>
    match ms with
    | [] => (stats, some (.panicked "runtime error: index out of range"))
    | m0 :: _ =>
      sortedSetGroupLoop key l ms gs
        (observeAt (ensureEntry stats g fun _ => NewResults) g
          (fun s => s.observeSortedSet key l m0))

/-- `sampleSortedSet` from `sample.go`: pipelined `ZCARD`/`ZRANGE key 0 0`,
then record one sorted-set observation per group. -/
def sampleSortedSet (key : String)
    (flushReply : Except String (List RValue)) (aggregator : Aggregator)
    (stats : StatsMap) : StatsMap × Option Failure :=
  match flushReply with
  | .error e => (stats, some (.err e))
  | .ok (r0 :: r1 :: _) =>
    match redisInt r0 with
    | .error e => (stats, some (.err e))
    | .ok l =>
      match redisStrings r1 with
      | .error e => (stats, some (.err e))
      | .ok ms => sortedSetGroupLoop key l ms (aggregator key TypeSortedSet) stats
  | .ok _ => (stats, none)

/-- The group loop of `sampleHash`: in the Go source the conversion of
the `HLEN`/`HKEYS` replies, the `HGET` round trip for `fields[0]` and
the observation all happen inside the loop over groups, so they are
repeated (and can fail) once per group. -/
def hashGroupLoop (key : String) (r0 r1 : RValue)
    (hget : String → Except String String) :
    List String → StatsMap → StatsMap × Option Failure
  | [], stats => (stats, none)
  | g :: gs, stats =>
    match redisInt r0 with
    | .error e => (stats, some (.err e))
    | .ok l =>
      match redisStrings r1 with
      | .error e => (stats, some (.err e))
      | .ok fields =>
        match fields with
        | [] => (stats, some (.panicked "runtime error: index out of range"))
        | f0 :: _ =>
          match hget f0 with
          | .error e => (stats, some (.err e))
          | .ok val =>
            hashGroupLoop key r0 r1 hget gs
              (observeAt (ensureEntry stats g fun _ => NewResults) g
                (fun s => s.observeHash key l f0 val))

/-- `sampleHash` from `sample.go`: pipelined `HLEN`/`HKEYS`, then for
each group an `HGET key fields[0]` round trip and one hash observation.
`hget` is the store's (static) reply to `HGET key f`. -/
def sampleHash (key : String) (flushReply : Except String (List RValue))
    (hget : String → Except String String) (aggregator : Aggregator)
    (stats : StatsMap) : StatsMap × Option Failure :=
  match flushReply with
  | .error e => (stats, some (.err e))
  | .ok (r0 :: r1 :: _) =>
    hashGroupLoop key r0 r1 hget (aggregator key TypeHash) stats
  | .ok _ => (stats, none)

/-- The replies one iteration of the run loop may consume: the
`RANDOMKEY` and `TYPE` replies, the `GET` reply (string keys), the
pipeline-flush replies (collection keys) and the per-field `HGET`
replies (hash keys). -/
structure StepInput where
  keyReply : Except String String
  typeReply : Except String String
  getReply : Except String String
  flushReply : Except String (List RValue)
  hgetReply : String → Except String String

/-- `randomKey` from `sample.go`: `RANDOMKEY` then `TYPE key`; on a
command error the Go function returns the error with `TypeUnknown`,
modelled as the `Except` error branch. -/
def randomKey (s : StepInput) : Except String (String × ValueType) :=
  match s.keyReply with
  | .error e => .error e
  | .ok key =>
    match s.typeReply with
    | .error e => .error e
    | .ok typeStr => .ok (key, typeStr)

/-- The outcome of one iteration of `Run`'s loop body: continue with
updated state, or abort the run with a failure. -/
inductive StepOut where
  | next (stats : StatsMap) (lastInterval : Int) (progress : List Int)
  | abort (stats : StatsMap) (f : Failure) (progress : List Int)
  deriving Repr, DecidableEq

/-- The body of `Run`'s sampling loop at index `i`: fetch a random key
and its type, maybe emit a progress notification (recorded in
`progress`, modelling the `fmt.Printf` side effect), then dispatch on
the reported type; an unrecognized type is a terminal error. -/
def runBody (aggregator : Aggregator) (s : StepInput) (i : Nat)
    (lastInterval interval : Int) (stats : StatsMap)
    (progress : List Int) : StepOut :=
  match randomKey s with
  | .error e => .abort stats (.err e) progress
  | .ok (key, vt) =>
    let q := Int.tdiv (i : Int) interval
    let lastInterval' := if q ≠ lastInterval then q else lastInterval
    let progress' := if q ≠ lastInterval then progress ++ [(i : Int)] else progress
    if vt = TypeString then
      match sampleString key s.getReply aggregator stats with
      | (m, some f) => .abort m f progress'
      | (m, none) => .next m lastInterval' progress'
    else if vt = TypeList then
      match sampleList key s.flushReply aggregator stats with
      | (m, some f) => .abort m f progress'
      | (m, none) => .next m lastInterval' progress'
    else if vt = TypeSet then
      match sampleSet key s.flushReply aggregator stats with
      | (m, some f) => .abort m f progress'
      | (m, none) => .next m lastInterval' progress'
    else if vt = TypeSortedSet then
      match sampleSortedSet key s.flushReply aggregator stats with
      | (m, some f) => .abort m f progress'
      | (m, none) => .next m lastInterval' progress'
    else if vt = TypeHash then
      match sampleHash key s.flushReply s.hgetReply aggregator stats with
      | (m, some f) => .abort m f progress'
      | (m, none) => .next m lastInterval' progress'
    else
      .abort stats (.err ("unknown type for redis key: " ++ key)) progress'

/-- `Run`'s sampling loop, `for i := 0; i < NumKeys; i++`, as a
recursion on the number `rem` of remaining iterations (`i` is the
current index).  Returns the bucket map, the failure if the run was
aborted, and the indices at which progress was printed. -/
def runLoop (aggregator : Aggregator) (steps : Nat → StepInput)
    (interval : Int) :
    Nat → Nat → Int → StatsMap → List Int →
    StatsMap × Option Failure × List Int
  | 0, _, _, stats, progress => (stats, none, progress)
  | rem + 1, i, lastInterval, stats, progress =>
    match runBody aggregator (steps i) i lastInterval interval stats progress with
    | .abort m f p => (m, some f, p)
    | .next m li p => runLoop aggregator steps interval rem (i + 1) li m p

/-- The progress interval computed once at loop start in `Run`:
`NumKeys / 100` (Go's truncating integer division), replaced by `100`
when that quotient is `0`. -/
def computeInterval (numKeys : Int) : Int :=
  let interval := Int.tdiv numKeys 100
  if interval = 0 then 100 else interval

/-- The connection oracle for one `Run` invocation: the result of the
dial and the replies consumed by each loop iteration. -/
structure RunConn where
  dial : Except String Unit
  steps : Nat → StepInput

/-- `Run` from `sample.go`: allocate the bucket map, dial the store
(returning the already-allocated empty map on a dial error), compute
the progress interval once, then run the sampling loop.  The returned
map is an `Option` so that a nil Go map is representable: `make`
allocates `some []`, and every return path returns the allocated
map. -/
def Run (opts : Options) (aggregator : Aggregator) (conn : RunConn) :
    Option StatsMap × Option Failure × List Int :=
  let stats : StatsMap := []
  match conn.dial with
  | .error e => (some stats, some (.err e), [])
  | .ok _ =>
    let interval := computeInterval opts.NumKeys
    match runLoop aggregator conn.steps interval opts.NumKeys.toNat 0 0 stats [] with
    | (m, f, p) => (some m, f, p)

/-- The total of the five per-type key counters of one `Results`. -/
def keyCounterSum (r : Results) : Nat :=
  r.stringKeys + r.listKeys + r.setKeys + r.sortedSetKeys + r.hashKeys

/-- Sum of all per-type key counters across every bucket of a map. -/
def totalTypeCount (m : StatsMap) : Nat :=
  (m.map fun p => keyCounterSum p.2).sum

/-- The per-type key-counter total recorded in bucket `g` (0 when the
bucket does not exist). -/
def bucketKeyCount (m : StatsMap) (g : String) : Nat :=
  match m.lookup g with
  | some r => keyCounterSum r
  | none => 0

/-- The aggregation groups a successfully fetched step will be recorded
under (empty when the fetch itself fails). -/
def stepGroups (aggregator : Aggregator) (s : StepInput) : List String :=
  match randomKey s with
  | .ok (key, vt) => aggregator key vt
  | .error _ => []

/-- A step whose replies are well formed: the random-key fetch succeeds
with one of the five recognized types, and the type's sampler receives
replies of the shape a conformant redis produces for a non-empty value,
so that the sampler records exactly one observation per aggregation
group and cannot fail. -/
def wellFormedStep (s : StepInput) : Bool :=
  match randomKey s with
  | .error _ => false
  | .ok (_, vt) =>
    if vt = TypeString then
      match s.getReply with
      | .ok _ => true
      | .error _ => false
    else if vt = TypeList ∨ vt = TypeSortedSet then
      match s.flushReply with
      | .ok (.rint _ :: .rlist (_ :: _) :: _) => true
      | _ => false
    else if vt = TypeSet then
      match s.flushReply with
      | .ok (.rint _ :: .rstr _ :: _) => true
      | _ => false
    else if vt = TypeHash then
      match s.flushReply with
      | .ok (.rint _ :: .rlist (f0 :: _) :: _) =>
        match s.hgetReply f0 with
        | .ok _ => true
        | .error _ => false
      | _ => false
    else false

/-- The bucket map of a `StepOut`, whether the step continued or
aborted. -/
def StepOut.statsOf : StepOut → StatsMap
  | .next m _ _ => m
  | .abort m _ _ => m

/-- Whether a `StepOut` aborted the run. -/
def StepOut.failed : StepOut → Bool
  | .next _ _ _ => false
  | .abort _ _ _ => true

/-- One successful observation, the payload handed to the matching
`observe` method of `Results`; a run's statistics are a fold of
these. -/
inductive Observation where
  | str (key val : String)
  | list (key : String) (len : Int) (first : String)
  | set (key : String) (card : Int) (member : String)
  | zset (key : String) (card : Int) (member : String)
  | hash (key : String) (fieldCount : Int) (field val : String)
  deriving Repr, DecidableEq

/-- Dispatch one observation to the matching `observe` method. -/
def applyObs (r : Results) : Observation → Results
  | .str k v => r.observeString k v
  | .list k l f => r.observeList k l f
  | .set k c m => r.observeSet k c m
  | .zset k c m => r.observeSortedSet k c m
  | .hash k c f v => r.observeHash k c f v

/-- One sampling run's accumulator for a fixed observation sequence:
fold the observations into an empty `Results`. -/
def runObs (obs : List Observation) : Results :=
  obs.foldl applyObs NewResults

/-- Erase the caller-assigned bucket label, leaving only the counters
and size statistics. -/
def Results.clearName (r : Results) : Results :=
  { r with Name := "" }

/-- A benign step fixture: a string key whose `GET` succeeds. -/
def benignStep : StepInput :=
  { keyReply := .ok "k", typeReply := .ok "string", getReply := .ok "v",
    flushReply := .ok [], hgetReply := fun _ => .error "unused" }

/-- A connection whose dial succeeds and whose every step is
`benignStep`. -/
def benignConn : RunConn := ⟨.ok (), fun _ => benignStep⟩

/-- A step whose `TYPE` command reports an unrecognized classification. -/
def unknownTypeStep : StepInput :=
  { keyReply := .ok "k", typeReply := .ok "stream", getReply := .ok "v",
    flushReply := .ok [], hgetReply := fun _ => .error "unused" }

/-- A step whose `RANDOMKEY` command fails. -/
def failingStep : StepInput :=
  { keyReply := .error "connection reset by peer", typeReply := .ok "string",
    getReply := .ok "v", flushReply := .ok [],
    hgetReply := fun _ => .error "unused" }

theorem optCombine_min_comm (a b : Option Int) :
    optCombine Min.min a b = optCombine Min.min b a := by
  cases a <;> cases b <;> simp [optCombine, min_comm]

theorem optCombine_max_comm (a b : Option Int) :
    optCombine Max.max a b = optCombine Max.max b a := by
  cases a <;> cases b <;> simp [optCombine, max_comm]

theorem optCombine_min_assoc (a b c : Option Int) :
    optCombine Min.min (optCombine Min.min a b) c =
      optCombine Min.min a (optCombine Min.min b c) := by
  cases a <;> cases b <;> cases c <;> simp [optCombine, min_assoc]

theorem optCombine_max_assoc (a b c : Option Int) :
    optCombine Max.max (optCombine Max.max a b) c =
      optCombine Max.max a (optCombine Max.max b c) := by
  cases a <;> cases b <;> cases c <;> simp [optCombine, max_assoc]

theorem SizeStats.merge_comm (a b : SizeStats) : a.merge b = b.merge a := by
  simp [SizeStats.merge, optCombine_min_comm, optCombine_max_comm,
    Nat.add_comm, Int.add_comm]

theorem SizeStats.merge_assoc (a b c : SizeStats) :
    (a.merge b).merge c = a.merge (b.merge c) := by
  simp [SizeStats.merge, optCombine_min_assoc, optCombine_max_assoc,
    Nat.add_assoc, Int.add_assoc]

theorem SizeStats.merge_empty (a : SizeStats) : a.merge .empty = a := by
  cases a with
  | mk c s mn mx =>
    cases mn <;> cases mx <;>
      simp [SizeStats.merge, SizeStats.empty, optCombine]

theorem SizeStats.add_eq_merge (a : SizeStats) (n : Int) :
    a.add n = a.merge (SizeStats.empty.add n) := by
  cases a with
  | mk c s mn mx =>
    cases mn <;> cases mx <;>
      simp [SizeStats.add, SizeStats.merge, SizeStats.empty, optCombine]

theorem Results.Merge_assoc (a b c : Results) :
    (a.Merge b).Merge c = a.Merge (b.Merge c) := by
  simp [Results.Merge, SizeStats.merge_assoc, Nat.add_assoc]

theorem Results.Merge_newResults (a : Results) : a.Merge NewResults = a := by
  simp [Results.Merge, NewResults, SizeStats.merge_empty]

theorem applyObs_eq_merge (r : Results) (o : Observation) :
    applyObs r o = r.Merge (applyObs NewResults o) := by
  cases o <;>
    simp [applyObs, Results.observeString, Results.observeList,
      Results.observeSet, Results.observeSortedSet, Results.observeHash,
      Results.Merge, NewResults, SizeStats.merge_empty,
      ← SizeStats.add_eq_merge]

theorem foldl_applyObs_merge (obs : List Observation) (r : Results) :
    obs.foldl applyObs r = r.Merge (runObs obs) := by
  induction obs generalizing r with
  | nil => simp [runObs, Results.Merge_newResults]
  | cons o rest ih =>
    show rest.foldl applyObs (applyObs r o) = _
    rw [ih (applyObs r o)]
    have hrun : runObs (o :: rest) = (applyObs NewResults o).Merge (runObs rest) := by
      show rest.foldl applyObs (applyObs NewResults o) = _
      rw [ih (applyObs NewResults o)]
    rw [hrun, ← Results.Merge_assoc, ← applyObs_eq_merge]

/-- C5: merging `Results` accumulators is commutative on counters and
size statistics, associative, and merging the partial accumulators of
any split of an observation sequence agrees with one accumulation over
the whole sequence (so any partition, merged in any order, yields the
accumulator of the union). -/
theorem merge_comm_assoc_partition :
    (∀ A B : Results, (A.Merge B).clearName = (B.Merge A).clearName) ∧
    (∀ A B C : Results, (A.Merge B).Merge C = A.Merge (B.Merge C)) ∧
    (∀ xs ys : List Observation,
      runObs (xs ++ ys) = (runObs xs).Merge (runObs ys)) := by
  refine ⟨?_, Results.Merge_assoc, ?_⟩
  · intro A B
    simp [Results.Merge, Results.clearName, SizeStats.merge_comm,
      Nat.add_comm]
  · intro xs ys
    show (xs ++ ys).foldl applyObs NewResults = _
    rw [List.foldl_append, foldl_applyObs_merge]
    rfl

theorem lookup_append (l₁ l₂ : StatsMap) (k : String) :
    (l₁ ++ l₂).lookup k = (l₁.lookup k).or (l₂.lookup k) := by
  induction l₁ with
  | nil => simp [List.lookup]
  | cons p t ih =>
    obtain ⟨a, b⟩ := p
    cases hka : k == a <;> simp [List.lookup, hka, ih]

theorem lookup_ensureEntry_self (m : StatsMap) (g : String)
    (init : Unit → Results) :
    (ensureEntry m g init).lookup g = some ((m.lookup g).getD (init ())) := by
  unfold ensureEntry
  cases h : m.lookup g with
  | some r => simp [h]
  | none => simp [h, lookup_append, List.lookup]

theorem lookup_ensureEntry_ne (m : StatsMap) (g g' : String)
    (init : Unit → Results) (h : g' ≠ g) :
    (ensureEntry m g init).lookup g' = m.lookup g' := by
  unfold ensureEntry
  cases hm : m.lookup g with
  | some r => simp
  | none =>
    have hgg : (g' == g) = false := by simp [h]
    simp [lookup_append, List.lookup, hgg]

theorem lookup_observeAt_self (m : StatsMap) (g : String)
    (f : Results → Results) :
    (observeAt m g f).lookup g = (m.lookup g).map f := by
  induction m with
  | nil => simp [observeAt, List.lookup]
  | cons p t ih =>
    obtain ⟨a, b⟩ := p
    by_cases h : a = g
    · subst h
      simp [observeAt, List.lookup]
    · have hga : (g == a) = false := by simp [Ne.symm h]
      simp [observeAt, h, List.lookup, hga, ih]

theorem lookup_observeAt_ne (m : StatsMap) (g g' : String)
    (f : Results → Results) (h : g' ≠ g) :
    (observeAt m g f).lookup g' = m.lookup g' := by
  induction m with
  | nil => simp [observeAt]
  | cons p t ih =>
    obtain ⟨a, b⟩ := p
    by_cases ha : a = g
    · subst ha
      have hga : (g' == a) = false := by simp [h]
      simp [observeAt, List.lookup, hga]
    · cases hka : g' == a <;> simp [observeAt, ha, List.lookup, hka, ih]

theorem keyCounterSum_newResults : keyCounterSum NewResults = 0 := rfl

theorem keyCounterSum_observeString (r : Results) (k v : String) :
    keyCounterSum (r.observeString k v) = keyCounterSum r + 1 := by
  simp [keyCounterSum, Results.observeString]
  omega

theorem keyCounterSum_observeList (r : Results) (k : String) (l : Int)
    (f : String) :
    keyCounterSum (r.observeList k l f) = keyCounterSum r + 1 := by
  simp [keyCounterSum, Results.observeList]
  omega

theorem keyCounterSum_observeSet (r : Results) (k : String) (c : Int)
    (m : String) :
    keyCounterSum (r.observeSet k c m) = keyCounterSum r + 1 := by
  simp [keyCounterSum, Results.observeSet]
  omega

theorem keyCounterSum_observeSortedSet (r : Results) (k : String) (c : Int)
    (m : String) :
    keyCounterSum (r.observeSortedSet k c m) = keyCounterSum r + 1 := by
  simp [keyCounterSum, Results.observeSortedSet]
  omega

theorem keyCounterSum_observeHash (r : Results) (k : String) (c : Int)
    (f v : String) :
    keyCounterSum (r.observeHash k c f v) = keyCounterSum r + 1 := by
  simp [keyCounterSum, Results.observeHash]
  omega

theorem bucketKeyCount_observe (m : StatsMap) (x g : String)
    (f : Results → Results)
    (hf : ∀ r, keyCounterSum (f r) = keyCounterSum r + 1) :
    bucketKeyCount (observeAt (ensureEntry m x fun _ => NewResults) x f) g =
      bucketKeyCount m g + (if x = g then 1 else 0) := by
  by_cases h : x = g
  · subst h
    simp only [bucketKeyCount, lookup_observeAt_self, lookup_ensureEntry_self]
    cases hm : m.lookup x with
    | none => simp [hf, keyCounterSum_newResults]
    | some r => simp [hf]
  · have hgx : g ≠ x := Ne.symm h
    simp only [bucketKeyCount, lookup_observeAt_ne _ _ _ _ hgx,
      lookup_ensureEntry_ne _ _ _ _ hgx, h, if_false]
    cases m.lookup g <;> simp

theorem foldl_observe_count (inc : Results → Results)
    (hinc : ∀ r, keyCounterSum (inc r) = keyCounterSum r + 1)
    (g : String) :
    ∀ (gs : List String) (stats : StatsMap),
      bucketKeyCount
        (gs.foldl (fun m x =>
          observeAt (ensureEntry m x fun _ => NewResults) x inc) stats) g =
        bucketKeyCount stats g + gs.count g := by
  intro gs
  induction gs with
  | nil => simp
  | cons x t ih =>
    intro stats
    simp only [List.foldl_cons, ih, bucketKeyCount_observe _ _ _ _ hinc,
      List.count_cons]
    by_cases h : x = g
    · simp [h]
      omega
    · simp [h]

set_option maxRecDepth 40000 in
/-- C1 counterexample: the claim fails on the code — for
`NumKeys = 250` the interval `Run` computes is `250/100 = 2`, not
`max(250/100, 100) = 100`, and under a benign all-string trace its
progress notifications do not fire at `i = 100` and `i = 200` only. -/
theorem run_progress_interval_cex :
    computeInterval 250 = 2 ∧ max (Int.tdiv 250 100) 100 = 100 ∧
    (Run ⟨"h", 6379, 250⟩ AnyKey benignConn).2.2 ≠ [100, 200] := by
  refine ⟨by decide, by decide, by decide⟩

set_option maxRecDepth 40000 in
/-- C1 (amended): `Run` computes the progress interval once, at loop
start, as `NumKeys/100` with `100` substituted only when that quotient
is `0`; for `NumKeys = 250` the interval is `2`, and under a benign
all-string trace progress notifications fire exactly at the nonzero
multiples of `2` below `250`, not at every key. -/
theorem run_progress_interval :
    (∀ n : Int,
      computeInterval n =
        if Int.tdiv n 100 = 0 then 100 else Int.tdiv n 100) ∧
    computeInterval 250 = 2 ∧
    (Run ⟨"h", 6379, 250⟩ AnyKey benignConn).2.2 =
      ((List.range 250).filter fun i => i % 2 == 0 && i != 0).map
        (fun i => (i : Int)) := by
  refine ⟨fun n => rfl, by decide, by decide⟩

/-- C2: evaluation of the samplers at cardinality-0 collections — the
list and sorted-set samplers evaluate `ms[0]` on the empty member slice
and panic with an index-out-of-range runtime error, the hash sampler
panics on `fields[0]`, and the set sampler fails with redigo's nil-reply
error; no type counter is updated, contradicting the specified
empty-collection behavior. -/
theorem samplers_empty_collection_fail :
    sampleList "k" (.ok [.rint 0, .rlist []]) AnyKey [] =
      ([], some (.panicked "runtime error: index out of range")) ∧
    sampleSortedSet "k" (.ok [.rint 0, .rlist []]) AnyKey [] =
      ([], some (.panicked "runtime error: index out of range")) ∧
    sampleHash "k" (.ok [.rint 0, .rlist []]) (fun _ => .error "unused")
        AnyKey [] =
      ([], some (.panicked "runtime error: index out of range")) ∧
    sampleSet "k" (.ok [.rint 0, .rnil]) AnyKey [] =
      ([], some (.err "redigo: nil returned")) := by
  refine ⟨rfl, rfl, rfl, rfl⟩

/-- C4 counterexample: the claim fails on the code — when the
aggregator returns the duplicated group list `["a", "a"]`, a single
string observation is recorded twice in bucket `"a"` (its string-key
counter reaches `2`, not the `1` the per-distinct-name claim
predicts). -/
theorem duplicate_groups_cex :
    ((sampleString "k" (.ok "v") (fun _ _ => ["a", "a"]) []).1.lookup
      "a").map Results.stringKeys = some 2 ∧ (2 : Nat) ≠ 1 := by
  refine ⟨by decide, by decide⟩

theorem listGroupLoop_count (key : String) (l : Int) (m0 : String)
    (ms : List String) (g : String) :
    ∀ (gs : List String) (stats : StatsMap),
      bucketKeyCount (listGroupLoop key l (m0 :: ms) gs stats).1 g =
        bucketKeyCount stats g + gs.count g := by
  intro gs
  induction gs with
  | nil => simp [listGroupLoop]
  | cons x t ih =>
    intro stats
    simp only [listGroupLoop, List.count_cons, ih, bucketKeyCount_observe
      _ _ _ _ (fun r => keyCounterSum_observeList r key l m0)]
    by_cases h : x = g
    · simp [h]
      omega
    · simp [h]

theorem sortedSetGroupLoop_count (key : String) (l : Int) (m0 : String)
    (ms : List String) (g : String) :
    ∀ (gs : List String) (stats : StatsMap),
      bucketKeyCount (sortedSetGroupLoop key l (m0 :: ms) gs stats).1 g =
        bucketKeyCount stats g + gs.count g := by
  intro gs
  induction gs with
  | nil => simp [sortedSetGroupLoop]
  | cons x t ih =>
    intro stats
    simp only [sortedSetGroupLoop, List.count_cons, ih,
      bucketKeyCount_observe _ _ _ _
        (fun r => keyCounterSum_observeSortedSet r key l m0)]
    by_cases h : x = g
    · simp [h]
      omega
    · simp [h]

theorem hashGroupLoop_count (key : String) (l : Int) (f0 : String)
    (fs : List String) (hget : String → Except String String) (v : String)
    (hv : hget f0 = .ok v) (g : String) :
    ∀ (gs : List String) (stats : StatsMap),
      bucketKeyCount
          (hashGroupLoop key (.rint l) (.rlist (f0 :: fs)) hget gs
            stats).1 g =
        bucketKeyCount stats g + gs.count g := by
  intro gs
  induction gs with
  | nil => simp [hashGroupLoop]
  | cons x t ih =>
    intro stats
    simp only [hashGroupLoop, redisInt, redisStrings, hv,
      List.count_cons, ih, bucketKeyCount_observe _ _ _ _
        (fun r => keyCounterSum_observeHash r key l f0 v)]
    by_cases h : x = g
    · simp [h]
      omega
    · simp [h]

/-- C4 (amended): for every sampled key of any of the five types, a
single observation is recorded once per occurrence of each bucket name
the aggregator returns — a name appearing `k` times has the observation
counted `k` times in that bucket's accumulator: on each sampler's
success path the per-type counter total of bucket `g` grows by the
number of occurrences of `g` in the returned group list. -/
theorem observation_recorded_per_occurrence (key val : String) (l : Int)
    (m0 : String) (ms : List String) (rest : List RValue)
    (hget : String → Except String String) (f0 : String)
    (fs : List String) (v : String) (agg : Aggregator) (stats : StatsMap)
    (g : String) (hv : hget f0 = .ok v) :
    bucketKeyCount ((sampleString key (.ok val) agg stats).1) g =
      bucketKeyCount stats g + (agg key TypeString).count g ∧
    bucketKeyCount
        ((sampleList key (.ok (.rint l :: .rlist (m0 :: ms) :: rest)) agg
          stats).1) g =
      bucketKeyCount stats g + (agg key TypeList).count g ∧
    bucketKeyCount
        ((sampleSet key (.ok (.rint l :: .rstr m0 :: rest)) agg
          stats).1) g =
      bucketKeyCount stats g + (agg key TypeSet).count g ∧
    bucketKeyCount
        ((sampleSortedSet key (.ok (.rint l :: .rlist (m0 :: ms) :: rest))
          agg stats).1) g =
      bucketKeyCount stats g + (agg key TypeSortedSet).count g ∧
    bucketKeyCount
        ((sampleHash key (.ok (.rint l :: .rlist (f0 :: fs) :: rest))
          hget agg stats).1) g =
      bucketKeyCount stats g + (agg key TypeHash).count g := by
  refine ⟨?_, ?_, ?_, ?_, ?_⟩
  · exact foldl_observe_count _
      (fun r => keyCounterSum_observeString r key val) g
      (agg key TypeString) stats
  · simp only [sampleList, redisInt, redisStrings]
    exact listGroupLoop_count key l m0 ms g (agg key TypeList) stats
  · simp only [sampleSet, redisInt, redisString]
    exact foldl_observe_count _
      (fun r => keyCounterSum_observeSet r key l m0) g
      (agg key TypeSet) stats
  · simp only [sampleSortedSet, redisInt, redisStrings]
    exact sortedSetGroupLoop_count key l m0 ms g (agg key TypeSortedSet)
      stats
  · simp only [sampleHash]
    exact hashGroupLoop_count key l f0 fs hget v hv g (agg key TypeHash)
      stats

/-- C4 (amended) witness: with the duplicated group list `["a", "a"]`,
each of the five samplers records the single observation twice in
bucket `"a"` on its success path. -/
theorem observation_recorded_per_occurrence_witness :
    bucketKeyCount
        ((sampleString "k" (.ok "v") (fun _ _ => ["a", "a"]) []).1) "a" =
      bucketKeyCount [] "a" + (["a", "a"] : List String).count "a" ∧
    bucketKeyCount
        ((sampleList "k" (.ok (.rint 2 :: .rlist ("m" :: []) :: []))
          (fun _ _ => ["a", "a"]) []).1) "a" =
      bucketKeyCount [] "a" + (["a", "a"] : List String).count "a" ∧
    bucketKeyCount
        ((sampleSet "k" (.ok (.rint 2 :: .rstr "m" :: []))
          (fun _ _ => ["a", "a"]) []).1) "a" =
      bucketKeyCount [] "a" + (["a", "a"] : List String).count "a" ∧
    bucketKeyCount
        ((sampleSortedSet "k" (.ok (.rint 2 :: .rlist ("m" :: []) :: []))
          (fun _ _ => ["a", "a"]) []).1) "a" =
      bucketKeyCount [] "a" + (["a", "a"] : List String).count "a" ∧
    bucketKeyCount
        ((sampleHash "k" (.ok (.rint 2 :: .rlist ("f" :: []) :: []))
          (fun s => .ok (s ++ "!")) (fun _ _ => ["a", "a"]) []).1) "a" =
      bucketKeyCount [] "a" + (["a", "a"] : List String).count "a" :=
  observation_recorded_per_occurrence "k" "v" 2 "m" [] []
    (fun s => .ok (s ++ "!")) "f" [] ("f" ++ "!") (fun _ _ => ["a", "a"])
    [] "a" rfl

/-- C3: when the random key sampled at iteration `i` reports a type
classification that is none of the five recognized kinds, the run
returns immediately — for any number of remaining iterations — with the
unknown-type error and the bucket map exactly as populated before that
point (the key is not skipped, the run is not retried). -/
theorem unknown_type_aborts (agg : Aggregator) (steps : Nat → StepInput)
    (interval : Int) (rem i : Nat) (lastInterval : Int) (stats : StatsMap)
    (progress : List Int) (key : String) (vt : ValueType)
    (hfetch : randomKey (steps i) = .ok (key, vt))
    (h1 : vt ≠ TypeString) (h2 : vt ≠ TypeList) (h3 : vt ≠ TypeSet)
    (h4 : vt ≠ TypeSortedSet) (h5 : vt ≠ TypeHash) :
    (runLoop agg steps interval (rem + 1) i lastInterval stats progress).1 =
      stats ∧
    (runLoop agg steps interval (rem + 1) i lastInterval stats
        progress).2.1 =
      some (.err ("unknown type for redis key: " ++ key)) := by
  simp only [runLoop, runBody, hfetch, h1, h2, h3, h4, h5, if_false]
  exact ⟨trivial, trivial⟩

/-- C3 witness: a concrete run whose first key reports the
unrecognized type `"stream"` aborts with the unknown-type error and an
unchanged (empty) bucket map. -/
theorem unknown_type_aborts_witness :
    (runLoop AnyKey (fun _ => unknownTypeStep) 100 (2 + 1) 0 0 []
        []).1 = [] ∧
    (runLoop AnyKey (fun _ => unknownTypeStep) 100 (2 + 1) 0 0 []
        []).2.1 =
      some (.err ("unknown type for redis key: " ++ "k")) :=
  unknown_type_aborts AnyKey (fun _ => unknownTypeStep) 100 2 0 0 [] []
    "k" "stream" rfl (by decide) (by decide) (by decide) (by decide)
    (by decide)

/-- C7: when the loop body at iteration `i` aborts with a failure (any
store-command failure), the whole run returns that body's partial
bucket map together with the non-nil failure, identically for every
number of remaining iterations — no internal retry. -/
theorem store_failure_aborts (agg : Aggregator) (steps : Nat → StepInput)
    (interval : Int) (i : Nat) (lastInterval : Int) (stats : StatsMap)
    (progress : List Int) (m : StatsMap) (f : Failure) (p : List Int)
    (h : runBody agg (steps i) i lastInterval interval stats progress =
      .abort m f p) :
    ∀ rem : Nat,
      runLoop agg steps interval (rem + 1) i lastInterval stats progress =
        (m, some f, p) := by
  intro rem
  simp only [runLoop, h]

/-- C7 witness: a run whose first `RANDOMKEY` fails returns the empty
partial map and the connection error, with five iterations still
remaining. -/
theorem store_failure_aborts_witness :
    runLoop AnyKey (fun _ => failingStep) 100 (5 + 1) 0 0 [] [] =
      ([], some (.err "connection reset by peer"), []) :=
  store_failure_aborts AnyKey (fun _ => failingStep) 100 0 0 [] [] []
    (.err "connection reset by peer") [] rfl 5

/-- C8: a `NumKeys` of 0 or negative is treated as a no-op empty
result: the returned bucket map is the allocated empty map, a
successful dial yields no error and no progress output, and the result
does not depend on the step oracle at all (no key is sampled). -/
theorem run_nonpositive_numkeys (opts : Options) (agg : Aggregator)
    (conn : RunConn) (h : opts.NumKeys ≤ 0) :
    (Run opts agg conn).1 = some [] ∧
    (conn.dial = .ok () → Run opts agg conn = (some [], none, [])) ∧
    (∀ steps2 : Nat → StepInput,
      Run opts agg conn = Run opts agg ⟨conn.dial, steps2⟩) := by
  have hz : opts.NumKeys.toNat = 0 := Int.toNat_of_nonpos h
  obtain ⟨dial, steps⟩ := conn
  cases dial with
  | error e => simp [Run]
  | ok u => simp [Run, hz, runLoop]

/-- C8 witness: `NumKeys = 0` with a successful dial returns the empty
map, no error and no progress, for the benign connection. -/
theorem run_nonpositive_numkeys_witness :
    (Run ⟨"h", 6379, 0⟩ AnyKey benignConn).1 = some [] ∧
    (benignConn.dial = .ok () →
      Run ⟨"h", 6379, 0⟩ AnyKey benignConn = (some [], none, [])) ∧
    (∀ steps2 : Nat → StepInput,
      Run ⟨"h", 6379, 0⟩ AnyKey benignConn =
        Run ⟨"h", 6379, 0⟩ AnyKey ⟨benignConn.dial, steps2⟩) :=
  run_nonpositive_numkeys ⟨"h", 6379, 0⟩ AnyKey benignConn (by decide)

/-- C10: `Run` never returns a nil bucket map — on every input the
returned map is `some`, and on a connection-dial failure in particular
it is the allocated empty map alongside the error. -/
theorem run_map_never_nil (opts : Options) (agg : Aggregator)
    (conn : RunConn) (e : String) (steps2 : Nat → StepInput) :
    (Run opts agg conn).1.isSome = true ∧
    (Run opts agg ⟨.error e, steps2⟩).1 = some [] := by
  constructor
  · obtain ⟨dial, steps⟩ := conn
    cases dial with
    | error e2 => simp [Run]
    | ok u =>
      rcases hr : runLoop agg steps (computeInterval opts.NumKeys)
          opts.NumKeys.toNat 0 0 [] [] with ⟨m2, f2, p2⟩
      simp [Run, hr]
  · simp [Run]

theorem hashGroupLoop_first_field (key : String) (r0 : RValue)
    (f : String) (rest rest2 : List String)
    (hget : String → Except String String) :
    ∀ (gs : List String) (stats : StatsMap),
      hashGroupLoop key r0 (.rlist (f :: rest)) hget gs stats =
        hashGroupLoop key r0 (.rlist (f :: rest2)) hget gs stats := by
  intro gs
  induction gs with
  | nil => intro stats; rfl
  | cons g t ih =>
    intro stats
    simp only [hashGroupLoop, redisStrings]
    cases redisInt r0 with
    | error e => rfl
    | ok l =>
      cases hget f with
      | error e => rfl
      | ok v => exact ih _

/-- C9: the hash sampler always selects the first field of the
field-name list — its result is unchanged under any replacement of the
remaining fields, and with a single-bucket aggregator it records
exactly one `observeHash` of the first field `f` and its (stable)
value, so repeated sampling of the same static hash observes the same
field and value every time. -/
theorem sampleHash_first_field (key : String) (l : Int) (f : String)
    (rest rest2 : List String) (hget : String → Except String String)
    (agg : Aggregator) (stats : StatsMap) (g : String) (v : String)
    (hv : hget f = .ok v) :
    (sampleHash key (.ok [.rint l, .rlist (f :: rest)]) hget agg stats =
      sampleHash key (.ok [.rint l, .rlist (f :: rest2)]) hget agg
        stats) ∧
    (sampleHash key (.ok [.rint l, .rlist (f :: rest)]) hget
        (fun _ _ => [g]) stats =
      (observeAt (ensureEntry stats g fun _ => NewResults) g
        (fun s => s.observeHash key l f v), none)) := by
  constructor
  · simp only [sampleHash]
    exact hashGroupLoop_first_field key (.rint l) f rest rest2 hget _ stats
  · simp [sampleHash, hashGroupLoop, redisInt, redisStrings, hv]

/-- C9 witness: a concrete two-field hash — the sampler records the
first field `"f1"` and its value regardless of the tail. -/
theorem sampleHash_first_field_witness :
    (sampleHash "h1" (.ok [.rint 2, .rlist ["f1", "f2"]])
        (fun s => .ok (s ++ "!")) AnyKey [] =
      sampleHash "h1" (.ok [.rint 2, .rlist ["f1", "zz"]])
        (fun s => .ok (s ++ "!")) AnyKey []) ∧
    (sampleHash "h1" (.ok [.rint 2, .rlist ["f1", "f2"]])
        (fun s => .ok (s ++ "!")) (fun _ _ => ["b"]) [] =
      (observeAt (ensureEntry [] "b" fun _ => NewResults) "b"
        (fun s => s.observeHash "h1" 2 "f1" ("f1" ++ "!")), none)) :=
  sampleHash_first_field "h1" 2 "f1" ["f2"] ["zz"]
    (fun s => .ok (s ++ "!")) AnyKey [] "b" ("f1" ++ "!") rfl

theorem totalTypeCount_append (a b : StatsMap) :
    totalTypeCount (a ++ b) = totalTypeCount a + totalTypeCount b := by
  simp [totalTypeCount]

theorem totalTypeCount_ensureEntry (m : StatsMap) (g : String) :
    totalTypeCount (ensureEntry m g fun _ => NewResults) =
      totalTypeCount m := by
  unfold ensureEntry
  split
  · rfl
  · simp [totalTypeCount_append, totalTypeCount, keyCounterSum_newResults]

theorem isSome_lookup_ensureEntry (m : StatsMap) (g : String)
    (init : Unit → Results) :
    ((ensureEntry m g init).lookup g).isSome := by
  rw [lookup_ensureEntry_self]
  rfl

theorem totalTypeCount_observeAt (m : StatsMap) (g : String)
    (f : Results → Results)
    (hf : ∀ r, keyCounterSum (f r) = keyCounterSum r + 1)
    (hm : (m.lookup g).isSome) :
    totalTypeCount (observeAt m g f) = totalTypeCount m + 1 := by
  induction m with
  | nil => simp [List.lookup] at hm
  | cons p t ih =>
    obtain ⟨a, b⟩ := p
    by_cases h : a = g
    · subst h
      simp [observeAt, totalTypeCount, hf]
      omega
    · have hga : (g == a) = false := by simp [Ne.symm h]
      simp only [List.lookup, hga] at hm
      have ht := ih hm
      simp only [observeAt, h, if_false, totalTypeCount, List.map_cons,
        List.sum_cons] at ht ⊢
      omega

theorem totalTypeCount_observe_step (m : StatsMap) (x : String)
    (inc : Results → Results)
    (hinc : ∀ r, keyCounterSum (inc r) = keyCounterSum r + 1) :
    totalTypeCount
        (observeAt (ensureEntry m x fun _ => NewResults) x inc) =
      totalTypeCount m + 1 := by
  rw [totalTypeCount_observeAt _ _ _ hinc (isSome_lookup_ensureEntry m x _),
    totalTypeCount_ensureEntry]

theorem totalTypeCount_foldl_observe (inc : Results → Results)
    (hinc : ∀ r, keyCounterSum (inc r) = keyCounterSum r + 1) :
    ∀ (gs : List String) (stats : StatsMap),
      totalTypeCount
          (gs.foldl (fun acc g =>
            observeAt (ensureEntry acc g fun _ => NewResults) g inc)
            stats) =
        totalTypeCount stats + gs.length := by
  intro gs
  induction gs with
  | nil => simp
  | cons x t ih =>
    intro stats
    simp only [List.foldl_cons, List.length_cons, ih,
      totalTypeCount_observe_step _ _ _ hinc]
    omega

theorem sampleString_ok_total (key val : String) (agg : Aggregator)
    (stats : StatsMap) :
    (sampleString key (.ok val) agg stats).2 = none ∧
    totalTypeCount (sampleString key (.ok val) agg stats).1 =
      totalTypeCount stats + (agg key TypeString).length := by
  refine ⟨rfl, ?_⟩
  simp only [sampleString]
  exact totalTypeCount_foldl_observe _
    (fun r => keyCounterSum_observeString r key val) _ stats

theorem sampleSet_ok_total (key : String) (l : Int) (m0 : String)
    (rest : List RValue) (agg : Aggregator) (stats : StatsMap) :
    (sampleSet key (.ok (.rint l :: .rstr m0 :: rest)) agg stats).2 =
      none ∧
    totalTypeCount
        (sampleSet key (.ok (.rint l :: .rstr m0 :: rest)) agg stats).1 =
      totalTypeCount stats + (agg key TypeSet).length := by
  refine ⟨rfl, ?_⟩
  simp only [sampleSet, redisInt, redisString]
  exact totalTypeCount_foldl_observe _
    (fun r => keyCounterSum_observeSet r key l m0) _ stats

theorem listGroupLoop_total (key : String) (l : Int) (m0 : String)
    (ms : List String) :
    ∀ (gs : List String) (stats : StatsMap),
      (listGroupLoop key l (m0 :: ms) gs stats).2 = none ∧
      totalTypeCount (listGroupLoop key l (m0 :: ms) gs stats).1 =
        totalTypeCount stats + gs.length := by
  intro gs
  induction gs with
  | nil => intro stats; exact ⟨rfl, by simp [listGroupLoop]⟩
  | cons g t ih =>
    intro stats
    simp only [listGroupLoop]
    refine ⟨(ih _).1, ?_⟩
    rw [(ih _).2, totalTypeCount_observe_step _ _ _
      (fun r => keyCounterSum_observeList r key l m0)]
    simp
    omega

theorem sortedSetGroupLoop_total (key : String) (l : Int) (m0 : String)
    (ms : List String) :
    ∀ (gs : List String) (stats : StatsMap),
      (sortedSetGroupLoop key l (m0 :: ms) gs stats).2 = none ∧
      totalTypeCount (sortedSetGroupLoop key l (m0 :: ms) gs stats).1 =
        totalTypeCount stats + gs.length := by
  intro gs
  induction gs with
  | nil => intro stats; exact ⟨rfl, by simp [sortedSetGroupLoop]⟩
  | cons g t ih =>
    intro stats
    simp only [sortedSetGroupLoop]
    refine ⟨(ih _).1, ?_⟩
    rw [(ih _).2, totalTypeCount_observe_step _ _ _
      (fun r => keyCounterSum_observeSortedSet r key l m0)]
    simp
    omega

theorem hashGroupLoop_total (key : String) (l : Int) (f0 : String)
    (fs : List String) (hget : String → Except String String) (v : String)
    (hv : hget f0 = .ok v) :
    ∀ (gs : List String) (stats : StatsMap),
      (hashGroupLoop key (.rint l) (.rlist (f0 :: fs)) hget gs stats).2 =
        none ∧
      totalTypeCount
          (hashGroupLoop key (.rint l) (.rlist (f0 :: fs)) hget gs
            stats).1 =
        totalTypeCount stats + gs.length := by
  intro gs
  induction gs with
  | nil => intro stats; exact ⟨rfl, by simp [hashGroupLoop]⟩
  | cons g t ih =>
    intro stats
    simp only [hashGroupLoop, redisInt, redisStrings, hv]
    refine ⟨(ih _).1, ?_⟩
    rw [(ih _).2, totalTypeCount_observe_step _ _ _
      (fun r => keyCounterSum_observeHash r key l f0 v)]
    simp
    omega

theorem sampleList_ok_total (key : String) (l : Int) (m0 : String)
    (ms : List String) (rest : List RValue) (agg : Aggregator)
    (stats : StatsMap) :
    (sampleList key (.ok (.rint l :: .rlist (m0 :: ms) :: rest)) agg
        stats).2 = none ∧
    totalTypeCount
        (sampleList key (.ok (.rint l :: .rlist (m0 :: ms) :: rest)) agg
          stats).1 =
      totalTypeCount stats + (agg key TypeList).length := by
  simp only [sampleList, redisInt, redisStrings]
  exact listGroupLoop_total key l m0 ms _ stats

theorem sampleSortedSet_ok_total (key : String) (l : Int) (m0 : String)
    (ms : List String) (rest : List RValue) (agg : Aggregator)
    (stats : StatsMap) :
    (sampleSortedSet key (.ok (.rint l :: .rlist (m0 :: ms) :: rest)) agg
        stats).2 = none ∧
    totalTypeCount
        (sampleSortedSet key (.ok (.rint l :: .rlist (m0 :: ms) :: rest))
          agg stats).1 =
      totalTypeCount stats + (agg key TypeSortedSet).length := by
  simp only [sampleSortedSet, redisInt, redisStrings]
  exact sortedSetGroupLoop_total key l m0 ms _ stats

theorem sampleHash_ok_total (key : String) (l : Int) (f0 : String)
    (fs : List String) (rest : List RValue)
    (hget : String → Except String String) (v : String)
    (hv : hget f0 = .ok v) (agg : Aggregator) (stats : StatsMap) :
    (sampleHash key (.ok (.rint l :: .rlist (f0 :: fs) :: rest)) hget agg
        stats).2 = none ∧
    totalTypeCount
        (sampleHash key (.ok (.rint l :: .rlist (f0 :: fs) :: rest)) hget
          agg stats).1 =
      totalTypeCount stats + (agg key TypeHash).length := by
  simp only [sampleHash]
  exact hashGroupLoop_total key l f0 fs hget v hv _ stats

theorem runBody_wellFormed (agg : Aggregator) (s : StepInput) (i : Nat)
    (li interval : Int) (stats : StatsMap) (prog : List Int)
    (h : wellFormedStep s = true) :
    (runBody agg s i li interval stats prog).failed = false ∧
    totalTypeCount (runBody agg s i li interval stats prog).statsOf =
      totalTypeCount stats + (stepGroups agg s).length := by
  cases hr : randomKey s with
  | error e => simp [wellFormedStep, hr] at h
  | ok kv =>
    obtain ⟨key, vt⟩ := kv
    simp only [wellFormedStep, hr] at h
    simp only [runBody, hr, stepGroups]
    by_cases h1 : vt = TypeString
    · subst h1
      rw [if_pos rfl] at h
      rw [if_pos rfl]
      cases hg : s.getReply with
      | error e => rw [hg] at h; simp at h
      | ok val =>
        obtain ⟨hfail, htot⟩ := sampleString_ok_total key val agg stats
        rcases hs : sampleString key (.ok val) agg stats with ⟨m2, f2⟩
        rw [hs] at hfail htot
        simp only at hfail
        subst hfail
        simp [StepOut.failed, StepOut.statsOf, htot]
    · rw [if_neg h1] at h ⊢
      by_cases h2 : vt = TypeList
      · rw [if_pos (Or.inl h2)] at h
        subst h2
        rw [if_pos rfl]
        split at h
        next n head tail rest heq =>
          rw [heq]
          obtain ⟨hfail, htot⟩ :=
            sampleList_ok_total key n head tail rest agg stats
          rcases hs : sampleList key
              (.ok (.rint n :: .rlist (head :: tail) :: rest)) agg stats
            with ⟨m2, f2⟩
          rw [hs] at hfail htot
          simp only at hfail
          subst hfail
          simp [StepOut.failed, StepOut.statsOf, htot]
        next => simp at h
      · rw [if_neg h2]
        by_cases h3 : vt = TypeSortedSet
        · rw [if_pos (Or.inr h3)] at h
          subst h3
          have h4 : TypeSortedSet ≠ TypeSet := by decide
          rw [if_neg h4, if_pos rfl]
          split at h
          next n head tail rest heq =>
            rw [heq]
            obtain ⟨hfail, htot⟩ :=
              sampleSortedSet_ok_total key n head tail rest agg stats
            rcases hs : sampleSortedSet key
                (.ok (.rint n :: .rlist (head :: tail) :: rest)) agg stats
              with ⟨m2, f2⟩
            rw [hs] at hfail htot
            simp only at hfail
            subst hfail
            simp [StepOut.failed, StepOut.statsOf, htot]
          next => simp at h
        · rw [if_neg (by exact fun hor => hor.elim h2 h3)] at h
          by_cases h5 : vt = TypeSet
          · rw [if_pos h5] at h
            subst h5
            rw [if_pos rfl]
            split at h
            next n m0 rest heq =>
              rw [heq]
              obtain ⟨hfail, htot⟩ :=
                sampleSet_ok_total key n m0 rest agg stats
              rcases hs : sampleSet key
                  (.ok (.rint n :: .rstr m0 :: rest)) agg stats
                with ⟨m2, f2⟩
              rw [hs] at hfail htot
              simp only at hfail
              subst hfail
              simp [StepOut.failed, StepOut.statsOf, htot]
            next => simp at h
          · rw [if_neg h5] at h ⊢
            rw [if_neg h3]
            by_cases h6 : vt = TypeHash
            · rw [if_pos h6] at h
              subst h6
              rw [if_pos rfl]
              split at h
              next n f0 fs rest heq =>
                rw [heq]
                cases hv : s.hgetReply f0 with
                | error e => rw [hv] at h; simp at h
                | ok v =>
                  obtain ⟨hfail, htot⟩ :=
                    sampleHash_ok_total key n f0 fs rest s.hgetReply v hv
                      agg stats
                  rcases hs : sampleHash key
                      (.ok (.rint n :: .rlist (f0 :: fs) :: rest))
                      s.hgetReply agg stats
                    with ⟨m2, f2⟩
                  rw [hs] at hfail htot
                  simp only at hfail
                  subst hfail
                  simp [StepOut.failed, StepOut.statsOf, htot]
              next => simp at h
            · rw [if_neg h6] at h
              simp at h

theorem runLoop_wellFormed_total (agg : Aggregator)
    (steps : Nat → StepInput) (interval : Int) :
    ∀ (rem i : Nat) (li : Int) (stats : StatsMap) (prog : List Int),
      (∀ j, j < rem → wellFormedStep (steps (i + j)) = true) →
      (runLoop agg steps interval rem i li stats prog).2.1 = none ∧
      totalTypeCount (runLoop agg steps interval rem i li stats prog).1 =
        totalTypeCount stats +
          ((List.range rem).map fun j =>
            (stepGroups agg (steps (i + j))).length).sum := by
  intro rem
  induction rem with
  | zero => intro i li stats prog h; simp [runLoop]
  | succ n ih =>
    intro i li stats prog h
    have h0 : wellFormedStep (steps i) = true := by
      have := h 0 (Nat.succ_pos n)
      simpa using this
    obtain ⟨hfail, htot⟩ :=
      runBody_wellFormed agg (steps i) i li interval stats prog h0
    cases hb : runBody agg (steps i) i li interval stats prog with
    | abort m f p => rw [hb] at hfail; simp [StepOut.failed] at hfail
    | next m li2 p =>
      rw [hb] at htot
      simp only [StepOut.statsOf] at htot
      have hshift : ∀ j, j < n → wellFormedStep (steps (i + 1 + j)) = true := by
        intro j hj
        have hw := h (j + 1) (by omega)
        have harith : i + (j + 1) = i + 1 + j := by omega
        rwa [harith] at hw
      obtain ⟨hnone, hind⟩ := ih (i + 1) li2 m p hshift
      refine ⟨by simp only [runLoop, hb]; exact hnone, ?_⟩
      simp only [runLoop, hb]
      rw [hind, htot]
      rw [List.range_succ_eq_map]
      simp only [List.map_cons, List.map_map, List.sum_cons,
        Function.comp_def, Nat.succ_eq_add_one, Nat.add_zero]
      have hmaps :
          ((List.range n).map fun j =>
            (stepGroups agg (steps (i + 1 + j))).length) =
          ((List.range n).map fun j =>
            (stepGroups agg (steps (i + (j + 1)))).length) := by
        congr 1
        funext j
        have harith : i + 1 + j = i + (j + 1) := by omega
        rw [harith]
      rw [hmaps]
      omega

/-- C6: for a run whose every step has well-formed replies (so the run
completes with no error), the sum of per-type counters across all
buckets grows by the total number of bucket names the aggregator
returned over the run — `N` keys times the average number of buckets
per observation — and with the `AnyKey` aggregator exactly `N`
observations land in its single bucket. -/
theorem run_type_count_invariant (agg : Aggregator)
    (steps : Nat → StepInput) (interval : Int) (rem i : Nat) (li : Int)
    (stats : StatsMap) (prog : List Int)
    (h : ∀ j, j < rem → wellFormedStep (steps (i + j)) = true) :
    ((runLoop agg steps interval rem i li stats prog).2.1 = none ∧
     totalTypeCount (runLoop agg steps interval rem i li stats prog).1 =
       totalTypeCount stats +
         ((List.range rem).map fun j =>
           (stepGroups agg (steps (i + j))).length).sum) ∧
    totalTypeCount (runLoop AnyKey steps interval rem i li stats prog).1 =
      totalTypeCount stats + rem := by
  refine ⟨runLoop_wellFormed_total agg steps interval rem i li stats prog h,
    ?_⟩
  obtain ⟨-, htot⟩ :=
    runLoop_wellFormed_total AnyKey steps interval rem i li stats prog h
  rw [htot]
  have hlen : ∀ j ∈ List.range rem,
      (stepGroups AnyKey (steps (i + j))).length = 1 := by
    intro j hj
    have hw := h j (List.mem_range.mp hj)
    cases hr : randomKey (steps (i + j)) with
    | error e => simp [wellFormedStep, hr] at hw
    | ok kv =>
      obtain ⟨k2, vt2⟩ := kv
      simp [stepGroups, hr, AnyKey]
  rw [List.map_congr_left hlen]
  simp

/-- C6 witness: two benign string-key steps with the `AnyKey`
aggregator record exactly two observations in the single bucket, with
no error. -/
theorem run_type_count_invariant_witness :
    (∀ j, j < 2 → wellFormedStep ((fun _ => benignStep) (0 + j)) = true) ∧
    totalTypeCount
        (runLoop AnyKey (fun _ => benignStep) 100 2 0 0 [] []).1 =
      totalTypeCount [] + 2 :=
  ⟨by decide,
    (run_type_count_invariant AnyKey (fun _ => benignStep) 100 2 0 0 [] []
      (by decide)).2⟩

end Reckon
